import Mathlib

/-!
Shallow embedding of the `SchemaBuilder` class of
`node-graphql-schema-builder` (src/index.ts, latest revision: the one with the
pairwise signal comparator, the constraint store
`sortAfterMap` / `sortBeforeMap` / `sortStartSet` / `sortEndSet`, and
`importFile`).

Modelling conventions:
* JavaScript `Map<string, T>` is modelled as an association list
  `List (String × T)` in insertion order (`Map.set` on a fresh key appends,
  on an existing key replaces the value in place).
* JavaScript `Set<string>` is modelled as a duplicate-free `List String` in
  insertion order (`Set.add` appends when absent).
* Fragment payloads are opaque to the engine (spec §1/§3): resolver sets and
  directive sets are type parameters `R` and `V`; `DocumentNode` is a small
  inductive whose `gql` constructor stands for the (external, out-of-scope)
  `graphql-tag` parser applied to raw text.
* Thrown exceptions are modelled with `Except`; the payload of a `SortError`
  (its `n` field and `identifiers` list) and of the duplicate-identifier
  errors is kept as structured data instead of the message string.
* `Array.prototype.sort` is modelled as a stable insertion sort threaded
  through `Except` (the comparator can throw): elements are inserted in input
  order, and an element is placed before the first existing element the
  comparator orders it strictly below, which preserves input order on ties
  exactly as the spec requires of the stable sort.
-/

/-- A GraphQL document: either the result of the (external) `gql` tag applied
to raw source text, or an opaque pre-parsed node. -/
inductive DocumentNode where
  | gql (source : String)
  | node (key : Nat)
deriving DecidableEq, Repr

/-- Input accepted by `addDefinions`: `DocumentNode | string`. -/
inductive DefInput where
  | str (s : String)
  | doc (d : DocumentNode)
deriving DecidableEq, Repr

/-- `addDefinions` parses raw strings with `gql` before storing them. -/
def DefInput.toDoc : DefInput → DocumentNode
  | .str s => .gql s
  | .doc d => d

/-- The `typeDefs` component of the prepared schema:
`DocumentNode | DocumentNode[]`. -/
inductive TypeDefs where
  | single (d : DocumentNode)
  | list (l : List DocumentNode)
deriving DecidableEq, Repr

/-- The data carried by a thrown `SortError`: the signal word `n` and the
offending identifiers, split by which message template produced it
(`Conflict with identifier(s) ...` versus `Unknown combination ...`). -/
inductive SortErr where
  | conflict (n : Nat) (identifiers : List String)
  | unknownCombination (n : Nat) (a b : String)
deriving DecidableEq, Repr

/-- The duplicate-identifier errors thrown by the registration methods and by
`importFile`. -/
inductive BuilderErr where
  | duplicateDefinitions (id : String)
  | duplicateResolvers (id : String)
  | duplicateDirectives (id : String)
  | duplicateImport (id : String)
deriving DecidableEq, Repr

/-- `Set.add`: append the element if it is not already present. -/
def addToSet (l : List String) (x : String) : List String :=
  if l.contains x then l else l ++ [x]

/-- `new Set(ids)`: deduplicate, keeping first occurrences in order. -/
def listToSet (ids : List String) : List String :=
  ids.foldl addToSet []

/-- `Map.set`: replace the value in place when the key exists, else append. -/
def setKey (m : List (String × List String)) (k : String) (v : List String) :
    List (String × List String) :=
  match m with
  | [] => [(k, v)]
  | p :: rest => if p.1 == k then (k, v) :: rest else p :: setKey rest k v

/-- `Map.has`. -/
def hasKey {T : Type} (m : List (String × T)) (k : String) : Bool :=
  m.any (fun p => p.1 == k)

/-- `Map.get` of an existing key (`none` when absent). -/
def lookupKey {T : Type} (m : List (String × T)) (k : String) : Option T :=
  (m.find? (fun p => p.1 == k)).map (·.2)

/-- `map.has(a) && map.get(a)!.has(b)`: the test each edge bit of the signal
word performs on `sortAfterMap` / `sortBeforeMap`. -/
def mapHasPair (m : List (String × List String)) (a b : String) : Bool :=
  match m.find? (fun p => p.1 == a) with
  | some p => p.2.contains b
  | none => false

/-- The constraint store consulted by the comparator inside
`applySortAndMap`. -/
structure SortState where
  sortStartSet : List String
  sortEndSet : List String
  sortAfterMap : List (String × List String)
  sortBeforeMap : List (String × List String)
deriving DecidableEq, Repr

/-- Pack the eight boolean signals into the signal word, with the same bit
values the source adds to `n` (1, 2, 4, 8, 16, 32, 64, 128). -/
def sigBits (a b c d e f g h : Bool) : Nat :=
  cond a 1 0 + cond b 2 0 + cond c 4 0 + cond d 8 0 +
  cond e 16 0 + cond f 32 0 + cond g 64 0 + cond h 128 0

/-- The signal word computed for the pair `(A, B)`:
bit 1 `A ↑`, bit 2 `B ↑`, bit 4 `A ↓`, bit 8 `B ↓`, bit 16 `A → B`,
bit 32 `B → A`, bit 64 `A ← B`, bit 128 `B ← A`. -/
def signal (s : SortState) (A B : String) : Nat :=
  sigBits (s.sortStartSet.contains A) (s.sortStartSet.contains B)
    (s.sortEndSet.contains A) (s.sortEndSet.contains B)
    (mapHasPair s.sortAfterMap A B) (mapHasPair s.sortAfterMap B A)
    (mapHasPair s.sortBeforeMap A B) (mapHasPair s.sortBeforeMap B A)

/-- Classification of a signal word by the comparator's `switch`: which of the
46 enumerated cases (grouped by action) the word falls into, or the default. -/
inductive SortCase where
  | keep
  | lower
  | higher
  | conflictA
  | conflictB
  | conflictBoth
  | unknownCase
deriving DecidableEq, Repr

/-- The comparator's 46-case `switch` on the signal word `n`, case group by
case group in source order; every word not enumerated falls to the default. -/
def caseOf (n : Nat) : SortCase :=
  if n = 0 ∨ n = 3 ∨ n = 12 then .keep
  else if n = 1 ∨ n = 8 ∨ n = 9 ∨ n = 32 ∨ n = 33 ∨ n = 40 ∨ n = 41 ∨
      n = 64 ∨ n = 65 ∨ n = 72 ∨ n = 73 ∨ n = 96 ∨ n = 97 ∨ n = 104 ∨
      n = 105 then .lower
  else if n = 2 ∨ n = 4 ∨ n = 6 ∨ n = 16 ∨ n = 18 ∨ n = 20 ∨ n = 22 ∨
      n = 128 ∨ n = 130 ∨ n = 132 ∨ n = 134 ∨ n = 144 ∨ n = 146 ∨ n = 148 ∨
      n = 150 then .higher
  else if n = 5 ∨ n = 7 ∨ n = 13 then .conflictA
  else if n = 10 ∨ n = 11 ∨ n = 14 then .conflictB
  else if n = 15 ∨ n = 48 ∨ n = 63 ∨ n = 192 ∨ n = 207 ∨ n = 240 ∨
      n = 255 then .conflictBoth
  else .unknownCase

/-- The action each case group performs: return a number, or throw the
`sortError` carrying `n` and the offending identifier(s). -/
def outcomeOfCase (c : SortCase) (n : Nat) (A B : String) :
    Except SortErr Int :=
  match c with
  | .keep => .ok 0
  | .lower => .ok (-1)
  | .higher => .ok 1
  | .conflictA => .error (.conflict n [A])
  | .conflictB => .error (.conflict n [B])
  | .conflictBoth => .error (.conflict n [A, B])
  | .unknownCase => .error (.unknownCombination n A B)

/-- The pairwise comparator used by `applySortAndMap`: compute the signal
word for `(A, B)` and dispatch on the `switch`. -/
def compareIds (s : SortState) (A B : String) : Except SortErr Int :=
  outcomeOfCase (caseOf (signal s A B)) (signal s A B) A B

/-- Which pairs of case classifications are mirror images of each other under
swapping the two compared identifiers. -/
def caseSwapOK : SortCase → SortCase → Bool
  | .keep, .keep => true
  | .lower, .higher => true
  | .higher, .lower => true
  | .conflictA, .conflictB => true
  | .conflictB, .conflictA => true
  | .conflictBoth, .conflictBoth => true
  | .unknownCase, .unknownCase => true
  | _, _ => false

/-- Exhaustive check over all 256 signal words: swapping the two identifiers
permutes the signal bits pairwise (1↔2, 4↔8, 16↔32, 64↔128) and the `switch`
classifies the swapped word as the mirror case. -/
theorem caseOf_swap (a b c d e f g h : Bool) :
    caseSwapOK (caseOf (sigBits a b c d e f g h))
      (caseOf (sigBits b a d c f e h g)) = true := by
  cases a <;> cases b <;> cases c <;> cases d <;>
    cases e <;> cases f <;> cases g <;> cases h <;> rfl

/-- Stable insertion of one keyed element into an already sorted list: the
element is placed before the first existing element the comparator orders it
strictly below; a comparator exception propagates. -/
def insertSorted {T : Type} (s : SortState) (x : String × T) :
    List (String × T) → Except SortErr (List (String × T))
  | [] => .ok [x]
  | y :: ys =>
    match compareIds s x.1 y.1 with
    | .error e => .error e
    | .ok c =>
      if c < 0 then .ok (x :: y :: ys)
      else
        match insertSorted s x ys with
        | .error e => .error e
        | .ok rest => .ok (y :: rest)

/-- Insert the elements of the first list, in input order, into the sorted
accumulator; a comparator exception aborts the sort. -/
def sortInto {T : Type} (s : SortState) :
    List (String × T) → List (String × T) → Except SortErr (List (String × T))
  | [], acc => .ok acc
  | x :: xs, acc =>
    match insertSorted s x acc with
    | .error e => .error e
    | .ok acc2 => sortInto s xs acc2

/-- `array.sort(comparator)` modelled as a stable insertion sort over the
key-value pairs, in `Except` because the comparator can throw. -/
def sortPairs {T : Type} (s : SortState) (l : List (String × T)) :
    Except SortErr (List (String × T)) :=
  sortInto s l []

/-- `applySortAndMap`: sort the key-value pairs with the signal comparator and
map to the values. -/
def applySortAndMap {T : Type} (s : SortState) (l : List (String × T)) :
    Except SortErr (List T) :=
  match sortPairs s l with
  | .ok arr => .ok (arr.map Prod.snd)
  | .error e => .error e

/-- `applySortAndMerge`: `merge({}, ...this.applySortAndMap(iterator))`,
with the recursive-merge operation and the empty object abstracted as `m`
and `e` (fragment payloads are opaque to the engine). -/
def applySortAndMerge {T : Type} (s : SortState) (e : T) (m : T → T → T)
    (l : List (String × T)) : Except SortErr T :=
  match applySortAndMap s l with
  | .ok items => .ok (items.foldl m e)
  | .error err => .error err

/-- The `SchemaBuilder` state: the three fragment maps, the known-identifier
set, and the constraint store, all in insertion order. -/
structure Builder (R V : Type) where
  definitions : List (String × DocumentNode)
  resolvers : List (String × R)
  directives : List (String × V)
  importedIdentifiers : List String
  sortAfterMap : List (String × List String)
  sortBeforeMap : List (String × List String)
  sortEndSet : List String
  sortStartSet : List String
deriving DecidableEq

/-- The field initializers of a freshly constructed `SchemaBuilder`: all maps
and sets empty except the pre-seeded start partition. -/
def Builder.init (R V : Type) : Builder R V :=
  { definitions := []
    resolvers := []
    directives := []
    importedIdentifiers := []
    sortAfterMap := []
    sortBeforeMap := []
    sortEndSet := []
    sortStartSet := ["index", "Query", "Mutation", "Subscription"] }

/-- The constraint-store projection of a builder, as read by the comparator. -/
def Builder.toSortState {R V : Type} (b : Builder R V) : SortState :=
  ⟨b.sortStartSet, b.sortEndSet, b.sortAfterMap, b.sortBeforeMap⟩

/-- `addDefinions`: reject a duplicate id for this kind, record the id as
known, parse raw text with `gql`, store the document. -/
def Builder.addDefinions {R V : Type} (b : Builder R V) (id : String)
    (d : DefInput) : Except BuilderErr (Builder R V) :=
  if hasKey b.definitions id then .error (.duplicateDefinitions id)
  else
    .ok { b with
      importedIdentifiers := addToSet b.importedIdentifiers id
      definitions := b.definitions ++ [(id, d.toDoc)] }

/-- `addResolvers`. -/
def Builder.addResolvers {R V : Type} (b : Builder R V) (id : String)
    (r : R) : Except BuilderErr (Builder R V) :=
  if hasKey b.resolvers id then .error (.duplicateResolvers id)
  else
    .ok { b with
      importedIdentifiers := addToSet b.importedIdentifiers id
      resolvers := b.resolvers ++ [(id, r)] }

/-- `addDirectives`. -/
def Builder.addDirectives {R V : Type} (b : Builder R V) (id : String)
    (v : V) : Except BuilderErr (Builder R V) :=
  if hasKey b.directives id then .error (.duplicateDirectives id)
  else
    .ok { b with
      importedIdentifiers := addToSet b.importedIdentifiers id
      directives := b.directives ++ [(id, v)] }

/-- `hasDefinitions`. -/
def Builder.hasDefinitions {R V : Type} (b : Builder R V) (id : String) :
    Bool := hasKey b.definitions id

/-- `hasResolvers`. -/
def Builder.hasResolvers {R V : Type} (b : Builder R V) (id : String) :
    Bool := hasKey b.resolvers id

/-- `hasDirectives`. -/
def Builder.hasDirectives {R V : Type} (b : Builder R V) (id : String) :
    Bool := hasKey b.directives id

/-- `has`: membership in the known-identifier set. -/
def Builder.has {R V : Type} (b : Builder R V) (id : String) : Bool :=
  b.importedIdentifiers.contains id

/-- `sortAfter(id, ...ids)`: when `ids` is non-empty, replace the after-set of
`id` with `new Set(ids)`. -/
def Builder.sortAfter {R V : Type} (b : Builder R V) (id : String)
    (ids : List String) : Builder R V :=
  if 0 < ids.length then
    { b with sortAfterMap := setKey b.sortAfterMap id (listToSet ids) }
  else b

/-- `sortBefore(id, ...ids)`. -/
def Builder.sortBefore {R V : Type} (b : Builder R V) (id : String)
    (ids : List String) : Builder R V :=
  if 0 < ids.length then
    { b with sortBeforeMap := setKey b.sortBeforeMap id (listToSet ids) }
  else b

/-- `sortStart(...ids)`: add every given id to the start partition. -/
def Builder.sortStart {R V : Type} (b : Builder R V) (ids : List String) :
    Builder R V :=
  { b with sortStartSet := ids.foldl addToSet b.sortStartSet }

/-- `sortEnd(...ids)`. -/
def Builder.sortEnd {R V : Type} (b : Builder R V) (ids : List String) :
    Builder R V :=
  { b with sortEndSet := ids.foldl addToSet b.sortEndSet }

/-- `prepareSchema`: empty kinds short-circuit (`gql("")` for definitions,
`undefined` for the merged kinds); non-empty kinds are sorted (and merged),
with a thrown `SortError` propagating in source order. -/
def prepareSchemaStruct := Unit

/-- The record returned by `prepareSchema`. -/
structure PreparedApolloSchema (R V : Type) where
  typeDefs : TypeDefs
  resolvers : Option R
  schemaDirectives : Option V
deriving DecidableEq

/-- `prepareSchema` itself; `eR`/`mR` and `eV`/`mV` are the abstracted empty
object and recursive merge for the two merged kinds. -/
def Builder.prepareSchema {R V : Type} (b : Builder R V) (eR : R)
    (mR : R → R → R) (eV : V) (mV : V → V → V) :
    Except SortErr (PreparedApolloSchema R V) :=
  match (if b.definitions.isEmpty then Except.ok (TypeDefs.single (.gql ""))
      else
        match applySortAndMap b.toSortState b.definitions with
        | .ok docs => .ok (TypeDefs.list docs)
        | .error e => .error e) with
  | .error e => .error e
  | .ok typeDefs =>
    match (if b.resolvers.isEmpty then Except.ok none
        else
          match applySortAndMerge b.toSortState eR mR b.resolvers with
          | .ok r => .ok (some r)
          | .error e => .error e) with
    | .error e => .error e
    | .ok resolvers =>
      match (if b.directives.isEmpty then Except.ok none
          else
            match applySortAndMerge b.toSortState eV mV b.directives with
            | .ok v => .ok (some v)
            | .error e => .error e) with
      | .error e => .error e
      | .ok schemaDirectives => .ok ⟨typeDefs, resolvers, schemaDirectives⟩

/-- The exported fields of an imported module, as `importFile` inspects them:
`none` models an absent (or wrongly typed) export, `some` a recognized one. -/
structure ImportedUnit (R V : Type) where
  definitions : Option DefInput
  resolvers : Option R
  directives : Option V
  sortAfter : Option (List String)
  sortBefore : Option (List String)
  sortStart : Option Bool
  sortEnd : Option Bool
deriving DecidableEq

/-- `importFile` line 228: register a present definitions export. -/
def importDefsStep {R V : Type} (id : String) (u : ImportedUnit R V)
    (b : Builder R V) : Except BuilderErr (Builder R V) :=
  match u.definitions with
  | some d => b.addDefinions id d
  | none => .ok b

/-- `importFile` line 232: register a present resolvers export. -/
def importResolversStep {R V : Type} (id : String) (u : ImportedUnit R V)
    (b : Builder R V) : Except BuilderErr (Builder R V) :=
  match u.resolvers with
  | some r => b.addResolvers id r
  | none => .ok b

/-- `importFile` line 236: register a present directives export. -/
def importDirectivesStep {R V : Type} (id : String) (u : ImportedUnit R V)
    (b : Builder R V) : Except BuilderErr (Builder R V) :=
  match u.directives with
  | some v => b.addDirectives id v
  | none => .ok b

/-- `importFile` lines 240-254: the sort declarations. The second guard is
translated exactly as written in the source: it tests
`typeof imported.sortAfter === "object"` (not `sortBefore`) before spreading
`imported.sortBefore`, so `sortBefore` is only invoked when a `sortAfter`
export is also present. -/
def importSortSteps {R V : Type} (id : String) (u : ImportedUnit R V)
    (b : Builder R V) : Builder R V :=
  let b1 :=
    match u.sortAfter with
    | some l => b.sortAfter id l
    | none => b
  let b2 :=
    if u.sortAfter.isSome then
      match u.sortBefore with
      | some l => b1.sortBefore id l
      | none => b1
    else b1
  let b3 :=
    match u.sortStart with
    | some true => b2.sortStart [id]
    | _ => b2
  match u.sortEnd with
  | some true => b3.sortEnd [id]
  | _ => b3

/-- `importFile`, with the filesystem resolution abstracted away: `id` is the
base filename without extension and `u` the record of recognized exports of
the already-loaded module. -/
def Builder.importFile {R V : Type} (b : Builder R V) (id : String)
    (u : ImportedUnit R V) : Except BuilderErr (Builder R V) :=
  if b.has id then .error (.duplicateImport id)
  else
    match importDefsStep id u b with
    | .error e => .error e
    | .ok b1 =>
      match importResolversStep id u b1 with
      | .error e => .error e
      | .ok b2 =>
        match importDirectivesStep id u b2 with
        | .error e => .error e
        | .ok b3 => .ok (importSortSteps id u b3)

/-- The builder states reachable from a freshly constructed `SchemaBuilder`
through the public state-changing API (`importFrom` is the per-entry
iteration of `importFile` and is covered by the `importF` step). -/
inductive Reach {R V : Type} : Builder R V → Prop where
  | init : Reach (Builder.init R V)
  | addDefs (b b' : Builder R V) (id : String) (d : DefInput) :
      Reach b → b.addDefinions id d = .ok b' → Reach b'
  | addRes (b b' : Builder R V) (id : String) (r : R) :
      Reach b → b.addResolvers id r = .ok b' → Reach b'
  | addDirs (b b' : Builder R V) (id : String) (v : V) :
      Reach b → b.addDirectives id v = .ok b' → Reach b'
  | after (b : Builder R V) (id : String) (ids : List String) :
      Reach b → Reach (b.sortAfter id ids)
  | before (b : Builder R V) (id : String) (ids : List String) :
      Reach b → Reach (b.sortBefore id ids)
  | start (b : Builder R V) (ids : List String) :
      Reach b → Reach (b.sortStart ids)
  | stop (b : Builder R V) (ids : List String) :
      Reach b → Reach (b.sortEnd ids)
  | importF (b b' : Builder R V) (id : String) (u : ImportedUnit R V) :
      Reach b → b.importFile id u = .ok b' → Reach b'


/-- Membership after `Set.add`: exactly the old members plus the new one. -/
theorem mem_addToSet (l : List String) (x y : String) :
    y ∈ addToSet l x ↔ y ∈ l ∨ y = x := by
  unfold addToSet
  split
  · rename_i h
    simp only [List.contains_iff_exists_mem_beq, beq_iff_eq] at h
    obtain ⟨z, hz, rfl⟩ := h
    constructor
    · exact Or.inl
    · rintro (hy | rfl)
      · exact hy
      · exact hz
  · simp

/-- Monotonicity of repeated `Set.add`. -/
theorem mem_foldl_addToSet (ids : List String) (l : List String) (y : String)
    (h : y ∈ l) : y ∈ ids.foldl addToSet l := by
  induction ids generalizing l with
  | nil => exact h
  | cons i t ih => exact ih _ ((mem_addToSet _ _ _).2 (Or.inl h))

/-- `Map.has` across an append. -/
theorem hasKey_append {T : Type} (l1 l2 : List (String × T)) (k : String) :
    hasKey (l1 ++ l2) k = (hasKey l1 k || hasKey l2 k) := by
  simp [hasKey, List.any_append]

/-- Looking up a key just appended to a map that did not contain it. -/
theorem lookupKey_append_self {T : Type} (l : List (String × T)) (k : String)
    (v : T) (h : hasKey l k = false) : lookupKey (l ++ [(k, v)]) k = some v := by
  induction l with
  | nil => simp [lookupKey, List.find?]
  | cons p t ih =>
    simp only [hasKey, List.any_cons, Bool.or_eq_false_iff] at h
    simp only [List.cons_append, lookupKey, List.find?_cons, h.1]
    exact ih h.2

/-- An edge bit can only fire on a key the map contains. -/
theorem mapHasPair_of_no_key (m : List (String × List String)) (k b : String)
    (h : hasKey m k = false) : mapHasPair m k b = false := by
  induction m with
  | nil => rfl
  | cons p t ih =>
    simp only [hasKey, List.any_cons, Bool.or_eq_false_iff] at h
    simp only [mapHasPair, List.find?_cons, h.1]
    exact ih h.2

/-- How `Map.set` changes the edge-bit test. -/
theorem mapHasPair_setKey (m : List (String × List String)) (k : String)
    (v : List String) (a b : String) :
    mapHasPair (setKey m k v) a b =
      if a = k then v.contains b else mapHasPair m a b := by
  induction m with
  | nil =>
    by_cases hak : a = k
    · subst hak; simp [setKey, mapHasPair, List.find?]
    · have hka : (k == a) = false := by
        simp only [beq_eq_false_iff_ne, ne_eq]
        exact fun h => hak h.symm
      simp [setKey, mapHasPair, List.find?, hka, hak]
  | cons p t ih =>
    simp only [setKey]
    by_cases hpk : p.1 = k
    · simp only [hpk, beq_self_eq_true, if_true]
      by_cases hak : a = k
      · subst hak; simp [mapHasPair, List.find?]
      · have hka : (k == a) = false := by
          simp [beq_iff_eq]; exact fun h => hak h.symm
        have hpa : (p.1 == a) = false := by rw [hpk]; exact hka
        simp [mapHasPair, List.find?_cons, hka, hpa, hak]
    · have hpk' : (p.1 == k) = false := by simp [beq_iff_eq, hpk]
      simp only [hpk', Bool.false_eq_true, if_false]
      by_cases hpa : p.1 = a
      · have : (p.1 == a) = true := by simp [beq_iff_eq, hpa]
        have hak : ¬ a = k := fun h => hpk (hpa.trans h)
        simp [mapHasPair, List.find?_cons, this, hak]
      · have : (p.1 == a) = false := by simp [beq_iff_eq, hpa]
        simp only [mapHasPair, List.find?_cons, this]
        exact ih

deriving instance DecidableEq for Except

/-- Mirror-case dispatch: whenever two classifications are mirror images, the
actions they trigger are the exact negation (for numbers) respectively a
conflict over the same identifiers (for conflicts), with the compared pair
swapped. -/
theorem outcome_swap (c1 c2 : SortCase) (hsw : caseSwapOK c1 c2 = true)
    (n1 n2 : Nat) (A B : String) :
    (∀ r : Int, outcomeOfCase c1 n1 A B = .ok r →
      outcomeOfCase c2 n2 B A = .ok (-r)) ∧
    (∀ n ids, outcomeOfCase c1 n1 A B = .error (.conflict n ids) →
      ∃ m ids2, outcomeOfCase c2 n2 B A = .error (.conflict m ids2) ∧
        List.Perm ids2 ids) := by
  cases c1 <;> cases c2 <;> simp only [caseSwapOK] at hsw <;>
    first
    | exact Bool.noConfusion hsw
    | skip
  · refine ⟨fun r hr => ?_, fun n ids h => by simp [outcomeOfCase] at h⟩
    simp only [outcomeOfCase, Except.ok.injEq] at hr ⊢
    omega
  · refine ⟨fun r hr => ?_, fun n ids h => by simp [outcomeOfCase] at h⟩
    simp only [outcomeOfCase, Except.ok.injEq] at hr ⊢
    omega
  · refine ⟨fun r hr => ?_, fun n ids h => by simp [outcomeOfCase] at h⟩
    simp only [outcomeOfCase, Except.ok.injEq] at hr ⊢
    omega
  · refine ⟨fun r hr => by simp [outcomeOfCase] at hr, fun n ids h => ?_⟩
    simp only [outcomeOfCase, Except.error.injEq, SortErr.conflict.injEq] at h
    refine ⟨n2, [A], by simp [outcomeOfCase], ?_⟩
    rw [← h.2]
  · refine ⟨fun r hr => by simp [outcomeOfCase] at hr, fun n ids h => ?_⟩
    simp only [outcomeOfCase, Except.error.injEq, SortErr.conflict.injEq] at h
    refine ⟨n2, [B], by simp [outcomeOfCase], ?_⟩
    rw [← h.2]
  · refine ⟨fun r hr => by simp [outcomeOfCase] at hr, fun n ids h => ?_⟩
    simp only [outcomeOfCase, Except.error.injEq, SortErr.conflict.injEq] at h
    refine ⟨n2, [B, A], by simp [outcomeOfCase], ?_⟩
    rw [← h.2]
    exact List.Perm.swap A B []
  · exact ⟨fun r hr => by simp [outcomeOfCase] at hr,
      fun n ids h => by simp [outcomeOfCase] at h⟩

/-- C1. For every state of the constraint store (start set, end set,
after-map, before-map) and every pair of distinct identifiers `A` and `B`,
the pairwise comparator used by `applySortAndMap` is antisymmetric: if
comparing `(A, B)` returns a number then comparing `(B, A)` returns exactly
its negation (`0` stays `0`), and if comparing `(A, B)` throws a conflict
then comparing `(B, A)` throws a conflict identifying the same
identifier(s). -/
theorem comparator_antisymmetric (s : SortState) (A B : String)
    (hne : A ≠ B) :
    (∀ r : Int, compareIds s A B = .ok r → compareIds s B A = .ok (-r)) ∧
    (∀ n ids, compareIds s A B = .error (.conflict n ids) →
      ∃ m ids2, compareIds s B A = .error (.conflict m ids2) ∧
        List.Perm ids2 ids) :=
  outcome_swap (caseOf (signal s A B)) (caseOf (signal s B A))
    (caseOf_swap (s.sortStartSet.contains A) (s.sortStartSet.contains B)
      (s.sortEndSet.contains A) (s.sortEndSet.contains B)
      (mapHasPair s.sortAfterMap A B) (mapHasPair s.sortAfterMap B A)
      (mapHasPair s.sortBeforeMap A B) (mapHasPair s.sortBeforeMap B A))
    (signal s A B) (signal s B A) A B

/-- A store declaring `sortBefore("A", ["B"])`, reached through the public
API. -/
def c1StateOrder : SortState :=
  ((Builder.init Nat Nat).sortBefore "A" ["B"]).toSortState

/-- A store declaring `sortAfter("A", ["B"])` and `sortAfter("B", ["A"])`,
reached through the public API. -/
def c1StateConflict : SortState :=
  (((Builder.init Nat Nat).sortAfter "A" ["B"]).sortAfter "B"
    ["A"]).toSortState

/-- C1 witness: at the concrete store `c1StateOrder`, `compare("A", "B")`
returns `-1` and antisymmetry yields `compare("B", "A") = 1`; at
`c1StateConflict`, `compare("A", "B")` throws the both-identifier conflict
and antisymmetry yields the mirrored conflict over the same identifiers. -/
theorem comparator_antisymmetric_witness :
    compareIds c1StateOrder "B" "A" = .ok 1 ∧
    List.Perm ["B", "A"] ["A", "B"] := by
  constructor
  · have h := (comparator_antisymmetric c1StateOrder "A" "B"
      (by decide)).1 (-1) (by decide)
    simpa using h
  · obtain ⟨m, ids2, heq, hperm⟩ :=
      (comparator_antisymmetric c1StateConflict "A" "B" (by decide)).2
        48 ["A", "B"] (by decide)
    have hval : compareIds c1StateConflict "B" "A" =
        .error (.conflict 48 ["B", "A"]) := by decide
    rw [hval] at heq
    simp only [Except.error.injEq, SortErr.conflict.injEq] at heq
    rw [← heq.2] at hperm
    exact hperm

/-- All identifiers taking part in an after- or before-edge (keys and set
members of the two edge maps). -/
def edgeIds (s : SortState) : List String :=
  (s.sortAfterMap ++ s.sortBeforeMap).flatMap (fun p => p.1 :: p.2)

/-- No identifier taking part in an edge is in the start or end partition. -/
def edgesSeparated (s : SortState) : Bool :=
  (edgeIds s).all
    (fun x => !(s.sortStartSet.contains x) && !(s.sortEndSet.contains x))

/-- No identifier declares the same other identifier in both its after-set
and its before-set. -/
def noTwoWayDeclaration (s : SortState) : Bool :=
  s.sortAfterMap.all
    (fun p => p.2.all (fun y => !(mapHasPair s.sortBeforeMap p.1 y)))

/-- Exhaustive check over all 256 signal words: a word in which the start/end
bits and the edge bits do not mix, and in which neither identifier
contributes both an after- and a before-edge to the pair, is classified by
one of the 46 enumerated cases, never by the default. -/
theorem coveredCheck_true (a b c d e f g h : Bool) :
    (((e || f || g || h) && (a || b || c || d)) || (e && g) || (f && h) ||
      decide (caseOf (sigBits a b c d e f g h) ≠ SortCase.unknownCase))
      = true := by
  cases a <;> cases b <;> cases c <;> cases d <;>
    cases e <;> cases f <;> cases g <;> cases h <;> rfl

/-- A fired edge bit exhibits a map entry. -/
theorem mapHasPair_mem (m : List (String × List String)) (a b : String)
    (h : mapHasPair m a b = true) : ∃ p ∈ m, p.1 = a ∧ b ∈ p.2 := by
  unfold mapHasPair at h
  rcases hf : m.find? (fun p => p.1 == a) with _ | p
  · rw [hf] at h; exact absurd h (by simp)
  · rw [hf] at h
    refine ⟨p, List.mem_of_find?_eq_some hf, ?_, by simpa using h⟩
    have := List.find?_some hf
    simpa using this

/-- Both ends of a fired edge bit occur in `edgeIds`. -/
theorem edge_mem_edgeIds (s : SortState) (x y : String)
    (h : mapHasPair s.sortAfterMap x y = true ∨
      mapHasPair s.sortBeforeMap x y = true) :
    x ∈ edgeIds s ∧ y ∈ edgeIds s := by
  have main : ∀ (m : List (String × List String)), m = s.sortAfterMap ∨
      m = s.sortBeforeMap → mapHasPair m x y = true →
      x ∈ edgeIds s ∧ y ∈ edgeIds s := by
    intro m hm hpair
    obtain ⟨p, hp, hx, hy⟩ := mapHasPair_mem m x y hpair
    have hmem : p ∈ s.sortAfterMap ++ s.sortBeforeMap := by
      rcases hm with rfl | rfl
      · exact List.mem_append_left _ hp
      · exact List.mem_append_right _ hp
    constructor
    · exact List.mem_flatMap.2 ⟨p, hmem, by simp [hx]⟩
    · exact List.mem_flatMap.2 ⟨p, hmem, by simp [hy]⟩
  rcases h with h | h
  · exact main _ (Or.inl rfl) h
  · exact main _ (Or.inr rfl) h

/-- Separated stores silence the start/end bits of any pair with a fired
edge bit. -/
theorem separated_start_end (s : SortState) (hsep : edgesSeparated s = true)
    (x y : String)
    (h : mapHasPair s.sortAfterMap x y = true ∨
      mapHasPair s.sortBeforeMap x y = true) :
    s.sortStartSet.contains x = false ∧ s.sortEndSet.contains x = false ∧
    s.sortStartSet.contains y = false ∧ s.sortEndSet.contains y = false := by
  obtain ⟨hx, hy⟩ := edge_mem_edgeIds s x y h
  unfold edgesSeparated at hsep
  rw [List.all_eq_true] at hsep
  have h1 := hsep x hx
  have h2 := hsep y hy
  simp only [Bool.and_eq_true, Bool.not_eq_true'] at h1 h2
  exact ⟨h1.1, h1.2, h2.1, h2.2⟩

/-- In a store with no two-way declaration, the after- and before-bits of the
same directed pair never fire together. -/
theorem noTwoWay_bits (s : SortState) (hnd : noTwoWayDeclaration s = true)
    (x y : String) :
    ¬(mapHasPair s.sortAfterMap x y = true ∧
      mapHasPair s.sortBeforeMap x y = true) := by
  rintro ⟨ha, hb⟩
  obtain ⟨p, hp, hx, hy⟩ := mapHasPair_mem _ _ _ ha
  unfold noTwoWayDeclaration at hnd
  rw [List.all_eq_true] at hnd
  have := hnd p hp
  rw [List.all_eq_true] at this
  have := this y hy
  rw [hx] at this
  rw [hb] at this
  exact Bool.noConfusion this

/-- C2 counterexample. The `UnknownCombination` default branch is reachable
through the public declaration operations: starting from a fresh builder,
the single call `sortAfter("Query", ["X"])` (with `"Query"` pre-seeded in
the start partition) produces signal word `17 = 1 + 16` for the pair
`("Query", "X")`, which no enumerated case covers, so the comparator throws
the unknown-combination defect rather than an order or a classified
conflict. -/
theorem unknown_combination_reachable :
    Reach ((Builder.init Nat Nat).sortAfter "Query" ["X"]) ∧
    compareIds ((Builder.init Nat Nat).sortAfter "Query" ["X"]).toSortState
        "Query" "X" =
      .error (.unknownCombination 17 "Query" "X") :=
  ⟨Reach.after _ _ _ Reach.init, by decide⟩

/-- C2 amended. The enumerated cases cover every signal word a store can
produce only under additional separation conditions: in any store where no
identifier taking part in an after/before-edge is in the start or end
partition, and no identifier has the same other identifier in both its
after-set and its before-set, the comparator never reaches the
`UnknownCombination` default branch; without these conditions reachable
stores (e.g. `sortAfter("Query", ["X"])` on a fresh builder, signal word 17)
do hit it. -/
theorem unknown_combination_unreachable_separated (s : SortState)
    (hsep : edgesSeparated s = true) (hnd : noTwoWayDeclaration s = true)
    (A B : String) (n : Nat) (a b : String) :
    compareIds s A B ≠ .error (.unknownCombination n a b) := by
  have hcheck := coveredCheck_true (s.sortStartSet.contains A)
    (s.sortStartSet.contains B) (s.sortEndSet.contains A)
    (s.sortEndSet.contains B) (mapHasPair s.sortAfterMap A B)
    (mapHasPair s.sortAfterMap B A) (mapHasPair s.sortBeforeMap A B)
    (mapHasPair s.sortBeforeMap B A)
  have hD1 : ((mapHasPair s.sortAfterMap A B || mapHasPair s.sortAfterMap B A
      || mapHasPair s.sortBeforeMap A B || mapHasPair s.sortBeforeMap B A) &&
      (s.sortStartSet.contains A || s.sortStartSet.contains B ||
        s.sortEndSet.contains A || s.sortEndSet.contains B)) = false := by
    rcases he : (mapHasPair s.sortAfterMap A B ||
        mapHasPair s.sortAfterMap B A || mapHasPair s.sortBeforeMap A B ||
        mapHasPair s.sortBeforeMap B A) with _ | _
    · rfl
    · have hlow : s.sortStartSet.contains A = false ∧
          s.sortEndSet.contains A = false ∧
          s.sortStartSet.contains B = false ∧
          s.sortEndSet.contains B = false := by
        simp only [Bool.or_eq_true] at he
        rcases he with ((h1 | h2) | h3) | h4
        · have := separated_start_end s hsep A B (Or.inl h1)
          exact ⟨this.1, this.2.1, this.2.2.1, this.2.2.2⟩
        · have := separated_start_end s hsep B A (Or.inl h2)
          exact ⟨this.2.2.1, this.2.2.2, this.1, this.2.1⟩
        · have := separated_start_end s hsep A B (Or.inr h3)
          exact ⟨this.1, this.2.1, this.2.2.1, this.2.2.2⟩
        · have := separated_start_end s hsep B A (Or.inr h4)
          exact ⟨this.2.2.1, this.2.2.2, this.1, this.2.1⟩
      rw [hlow.1, hlow.2.1, hlow.2.2.1, hlow.2.2.2]
      rfl
  have hD2 : (mapHasPair s.sortAfterMap A B &&
      mapHasPair s.sortBeforeMap A B) = false := by
    rcases h1 : mapHasPair s.sortAfterMap A B with _ | _
    · rfl
    · rcases h2 : mapHasPair s.sortBeforeMap A B with _ | _
      · rfl
      · exact absurd ⟨h1, h2⟩ (noTwoWay_bits s hnd A B)
  have hD3 : (mapHasPair s.sortAfterMap B A &&
      mapHasPair s.sortBeforeMap B A) = false := by
    rcases h1 : mapHasPair s.sortAfterMap B A with _ | _
    · rfl
    · rcases h2 : mapHasPair s.sortBeforeMap B A with _ | _
      · rfl
      · exact absurd ⟨h1, h2⟩ (noTwoWay_bits s hnd B A)
  rw [hD1, hD2, hD3] at hcheck
  simp only [Bool.false_or] at hcheck
  have hcase : caseOf (signal s A B) ≠ SortCase.unknownCase :=
    of_decide_eq_true hcheck
  intro hcontra
  unfold compareIds at hcontra
  rcases hc : caseOf (signal s A B) <;> rw [hc] at hcontra <;>
    simp [outcomeOfCase] at hcontra
  exact hcase hc

/-- C2 amended witness: a separated store with a single after-edge between
two identifiers outside the partitions never produces the unknown defect for
that pair. -/
def c2SepState : SortState :=
  ⟨["index", "Query", "Mutation", "Subscription"], [], [("A", ["B"])], []⟩

/-- C2 witness statement. -/
theorem unknown_combination_unreachable_separated_witness :
    compareIds c2SepState "A" "B" ≠
      .error (.unknownCombination 16 "A" "B") :=
  unknown_combination_unreachable_separated c2SepState (by decide)
    (by decide) "A" "B" 16 "A" "B"

/-- Membership test of a singleton set. -/
theorem contains_singleton (x y : String) :
    ([y].contains x) = decide (x = y) := by
  by_cases h : x = y <;> simp [h]

/-- Stores with pointwise equal comparators insert identically. -/
theorem insertSorted_congr {T : Type} (s1 s2 : SortState)
    (hc : ∀ a b, compareIds s1 a b = compareIds s2 a b) (x : String × T) :
    ∀ l, insertSorted s1 x l = insertSorted s2 x l := by
  intro l
  induction l with
  | nil => rfl
  | cons y ys ih => simp only [insertSorted, hc, ih]

/-- Stores with pointwise equal comparators sort identically. -/
theorem sortPairs_congr {T : Type} (s1 s2 : SortState)
    (hc : ∀ a b, compareIds s1 a b = compareIds s2 a b)
    (l : List (String × T)) : sortPairs s1 l = sortPairs s2 l := by
  unfold sortPairs
  suffices h : ∀ (l2 : List (String × T)) (acc : List (String × T)),
      sortInto s1 l2 acc = sortInto s2 l2 acc from h l []
  intro l2
  induction l2 with
  | nil => intro acc; rfl
  | cons x xs ih =>
    intro acc
    simp only [sortInto]
    rw [insertSorted_congr s1 s2 hc x acc]
    cases insertSorted s2 x acc with
    | error e => rfl
    | ok acc2 => exact ih acc2

/-- Stores with pointwise equal comparators produce identical
`applySortAndMap` results. -/
theorem applySortAndMap_congr {T : Type} (s1 s2 : SortState)
    (hc : ∀ a b, compareIds s1 a b = compareIds s2 a b)
    (l : List (String × T)) : applySortAndMap s1 l = applySortAndMap s2 l := by
  unfold applySortAndMap
  rw [sortPairs_congr s1 s2 hc l]

/-- Core of the before/after equivalence: on a store whose start/end
partitions avoid `X` and `Y`, where `Y` has no after-set yet, `X` no
before-set yet, and no opposite edge (`X` after `Y`, or `X` in `Y`'s
before-set) exists, declaring `before(X, [Y])` and declaring
`after(Y, [X])` give comparators that agree on every pair. -/
theorem compare_before_eq_after (sst sen : List String)
    (aft bef : List (String × List String)) (X Y : String) (hXY : X ≠ Y)
    (hXs : sst.contains X = false) (hXe : sen.contains X = false)
    (hYs : sst.contains Y = false) (hYe : sen.contains Y = false)
    (hYaft : hasKey aft Y = false) (hXbef : hasKey bef X = false)
    (hnoAB : mapHasPair aft X Y = false)
    (hnoBA : mapHasPair bef Y X = false) (A B : String) :
    compareIds ⟨sst, sen, aft, setKey bef X [Y]⟩ A B =
    compareIds ⟨sst, sen, setKey aft Y [X], bef⟩ A B := by
  have haftY : ∀ z, mapHasPair aft Y z = false :=
    fun z => mapHasPair_of_no_key _ _ _ hYaft
  have hbefX : ∀ z, mapHasPair bef X z = false :=
    fun z => mapHasPair_of_no_key _ _ _ hXbef
  have hYX : ¬ (Y = X) := fun hh => hXY hh.symm
  have nXs : X ∉ sst := by simpa using hXs
  have nYs : Y ∉ sst := by simpa using hYs
  have nXe : X ∉ sen := by simpa using hXe
  have nYe : Y ∉ sen := by simpa using hYe
  by_cases h1 : A = X ∧ B = Y
  · obtain ⟨hA, hB⟩ := h1
    subst hA; subst hB
    have e1 : signal ⟨sst, sen, aft, setKey bef A [B]⟩ A B = 64 := by
      show sigBits (sst.contains A) (sst.contains B) (sen.contains A)
          (sen.contains B) (mapHasPair aft A B) (mapHasPair aft B A)
          (mapHasPair (setKey bef A [B]) A B)
          (mapHasPair (setKey bef A [B]) B A) = 64
      rw [mapHasPair_setKey, mapHasPair_setKey]
      simp [nXs, nYs, nXe, nYe, hnoAB, haftY A, hnoBA, hYX,
        contains_singleton, sigBits]
    have e2 : signal ⟨sst, sen, setKey aft B [A], bef⟩ A B = 32 := by
      show sigBits (sst.contains A) (sst.contains B) (sen.contains A)
          (sen.contains B) (mapHasPair (setKey aft B [A]) A B)
          (mapHasPair (setKey aft B [A]) B A) (mapHasPair bef A B)
          (mapHasPair bef B A) = 32
      rw [mapHasPair_setKey, mapHasPair_setKey]
      simp [nXs, nYs, nXe, nYe, hnoAB, hbefX B, hnoBA, hXY,
        contains_singleton, sigBits]
    unfold compareIds
    rw [e1, e2]
    rfl
  by_cases h2 : A = Y ∧ B = X
  · obtain ⟨hA, hB⟩ := h2
    subst hA; subst hB
    have e1 : signal ⟨sst, sen, aft, setKey bef B [A]⟩ A B = 128 := by
      show sigBits (sst.contains A) (sst.contains B) (sen.contains A)
          (sen.contains B) (mapHasPair aft A B) (mapHasPair aft B A)
          (mapHasPair (setKey bef B [A]) A B)
          (mapHasPair (setKey bef B [A]) B A) = 128
      rw [mapHasPair_setKey, mapHasPair_setKey]
      simp [nXs, nYs, nXe, nYe, hnoAB, haftY B, hnoBA, hYX,
        contains_singleton, sigBits]
    have e2 : signal ⟨sst, sen, setKey aft A [B], bef⟩ A B = 16 := by
      show sigBits (sst.contains A) (sst.contains B) (sen.contains A)
          (sen.contains B) (mapHasPair (setKey aft A [B]) A B)
          (mapHasPair (setKey aft A [B]) B A) (mapHasPair bef A B)
          (mapHasPair bef B A) = 16
      rw [mapHasPair_setKey, mapHasPair_setKey]
      simp [nXs, nYs, nXe, nYe, hnoAB, hbefX A, hnoBA, hXY,
        contains_singleton, sigBits]
    unfold compareIds
    rw [e1, e2]
    rfl
  · have hgg : mapHasPair (setKey bef X [Y]) A B = mapHasPair bef A B := by
      rw [mapHasPair_setKey]
      by_cases hA : A = X
      · subst hA
        have hBY : ¬ (B = Y) := fun hh => h1 ⟨rfl, hh⟩
        rw [if_pos rfl, contains_singleton, decide_eq_false hBY, hbefX B]
      · rw [if_neg hA]
    have hhh : mapHasPair (setKey bef X [Y]) B A = mapHasPair bef B A := by
      rw [mapHasPair_setKey]
      by_cases hB : B = X
      · subst hB
        have hAY : ¬ (A = Y) := fun hh => h2 ⟨hh, rfl⟩
        rw [if_pos rfl, contains_singleton, decide_eq_false hAY, hbefX A]
      · rw [if_neg hB]
    have hee : mapHasPair (setKey aft Y [X]) A B = mapHasPair aft A B := by
      rw [mapHasPair_setKey]
      by_cases hA : A = Y
      · subst hA
        have hBX : ¬ (B = X) := fun hh => h2 ⟨rfl, hh⟩
        rw [if_pos rfl, contains_singleton, decide_eq_false hBX, haftY B]
      · rw [if_neg hA]
    have hff : mapHasPair (setKey aft Y [X]) B A = mapHasPair aft B A := by
      rw [mapHasPair_setKey]
      by_cases hB : B = Y
      · subst hB
        have hAX : ¬ (A = X) := fun hh => h1 ⟨hh, rfl⟩
        rw [if_pos rfl, contains_singleton, decide_eq_false hAX, haftY A]
      · rw [if_neg hB]
    have hsig : signal ⟨sst, sen, aft, setKey bef X [Y]⟩ A B =
        signal ⟨sst, sen, setKey aft Y [X], bef⟩ A B := by
      show sigBits (sst.contains A) (sst.contains B) (sen.contains A)
          (sen.contains B) (mapHasPair aft A B) (mapHasPair aft B A)
          (mapHasPair (setKey bef X [Y]) A B)
          (mapHasPair (setKey bef X [Y]) B A) =
        sigBits (sst.contains A) (sst.contains B) (sen.contains A)
          (sen.contains B) (mapHasPair (setKey aft Y [X]) A B)
          (mapHasPair (setKey aft Y [X]) B A) (mapHasPair bef A B)
          (mapHasPair bef B A)
      rw [hgg, hhh, hee, hff]
    unfold compareIds
    rw [hsig]

/-- C3 counterexample. With a base builder that already declares
`sortAfter("X", ["Y"])`, adding `sortBefore("X", ["Y"])` and instead adding
`sortAfter("Y", ["X"])` are not interchangeable: comparing `("X", "Y")`
throws the unknown-combination defect (signal word 80) in the first state
but the classified two-identifier conflict (signal word 48) in the second,
so the two declarations yield different comparator outcomes. -/
theorem before_after_not_equivalent :
    compareIds (((Builder.init Nat Nat).sortAfter "X" ["Y"]).sortBefore "X"
        ["Y"]).toSortState "X" "Y" =
      .error (.unknownCombination 80 "X" "Y") ∧
    compareIds (((Builder.init Nat Nat).sortAfter "X" ["Y"]).sortAfter "Y"
        ["X"]).toSortState "X" "Y" =
      .error (.conflict 48 ["X", "Y"]) ∧
    compareIds (((Builder.init Nat Nat).sortAfter "X" ["Y"]).sortBefore "X"
        ["Y"]).toSortState "X" "Y" ≠
    compareIds (((Builder.init Nat Nat).sortAfter "X" ["Y"]).sortAfter "Y"
        ["X"]).toSortState "X" "Y" := by decide

/-- C3 amended. `sortBefore(X, [Y])` and `sortAfter(Y, [X])` are
interchangeable on a builder state that is fresh with respect to the pair:
`X ≠ Y`, neither is in the start or end partition, `Y` has no after-set and
`X` no before-set yet, and no opposite edge between them is declared. Under
these conditions the two resulting states give the same comparator outcome
on every pair of identifiers and the same `applySortAndMap` result on every
input; without them the outcomes can differ. -/
theorem before_after_equivalent {R V : Type} (b : Builder R V) (X Y : String)
    (hXY : X ≠ Y)
    (hXs : b.sortStartSet.contains X = false)
    (hXe : b.sortEndSet.contains X = false)
    (hYs : b.sortStartSet.contains Y = false)
    (hYe : b.sortEndSet.contains Y = false)
    (hYaft : hasKey b.sortAfterMap Y = false)
    (hXbef : hasKey b.sortBeforeMap X = false)
    (hnoAB : mapHasPair b.sortAfterMap X Y = false)
    (hnoBA : mapHasPair b.sortBeforeMap Y X = false) :
    (∀ A B, compareIds (b.sortBefore X [Y]).toSortState A B =
      compareIds (b.sortAfter Y [X]).toSortState A B) ∧
    (∀ (T : Type) (l : List (String × T)),
      applySortAndMap (b.sortBefore X [Y]).toSortState l =
      applySortAndMap (b.sortAfter Y [X]).toSortState l) := by
  have hs1 : (b.sortBefore X [Y]).toSortState =
      ⟨b.sortStartSet, b.sortEndSet, b.sortAfterMap,
        setKey b.sortBeforeMap X [Y]⟩ := rfl
  have hs2 : (b.sortAfter Y [X]).toSortState =
      ⟨b.sortStartSet, b.sortEndSet, setKey b.sortAfterMap Y [X],
        b.sortBeforeMap⟩ := rfl
  have hpoint : ∀ A B, compareIds (b.sortBefore X [Y]).toSortState A B =
      compareIds (b.sortAfter Y [X]).toSortState A B := by
    intro A B
    rw [hs1, hs2]
    exact compare_before_eq_after b.sortStartSet b.sortEndSet b.sortAfterMap
      b.sortBeforeMap X Y hXY hXs hXe hYs hYe hYaft hXbef hnoAB hnoBA A B
  exact ⟨hpoint, fun T l => applySortAndMap_congr _ _ hpoint l⟩

/-- C3 witness: on a fresh builder, `sortBefore("A", ["B"])` and
`sortAfter("B", ["A"])` give the same outcome for the pair in question. -/
theorem before_after_equivalent_witness :
    compareIds ((Builder.init Nat Nat).sortBefore "A" ["B"]).toSortState
        "A" "B" =
      compareIds ((Builder.init Nat Nat).sortAfter "B" ["A"]).toSortState
        "A" "B" :=
  (before_after_equivalent (Builder.init Nat Nat) "A" "B" (by decide)
    (by decide) (by decide) (by decide) (by decide) (by decide) (by decide)
    (by decide) (by decide)).1 "A" "B"

/-- Sorting a two-element array performs exactly one comparison, of the
second element against the first. -/
theorem sortPairs_pair {T : Type} (s : SortState) (p q : String × T) :
    sortPairs s [p, q] =
      match compareIds s q.1 p.1 with
      | .error e => .error e
      | .ok c => if c < 0 then .ok [q, p] else .ok [p, q] := by
  show sortInto s [p, q] [] = _
  rcases hc : compareIds s q.1 p.1 with e | c
  · simp [sortInto, insertSorted, hc]
  · by_cases hlt : c < 0 <;> simp [sortInto, insertSorted, hc, hlt]

/-- C4 amended. If `sortAfter(A, [B])` and `sortAfter(B, [A])` are both in
force (`A ≠ B`, neither in the start or end partition, no before-edge
between them), then sorting the two-element collection `[A, B]` fails with
the conflict naming both `A` and `B` (signal word 48); for larger
collections the pairwise sort need not compare `A` with `B` and can return
an order without failing. -/
theorem mutual_after_pair_conflict {T : Type} (s : SortState)
    (A B : String) (x y : T) (hne : A ≠ B)
    (h1 : mapHasPair s.sortAfterMap A B = true)
    (h2 : mapHasPair s.sortAfterMap B A = true)
    (hsA : s.sortStartSet.contains A = false)
    (hsB : s.sortStartSet.contains B = false)
    (heA : s.sortEndSet.contains A = false)
    (heB : s.sortEndSet.contains B = false)
    (hbAB : mapHasPair s.sortBeforeMap A B = false)
    (hbBA : mapHasPair s.sortBeforeMap B A = false) :
    applySortAndMap s [(A, x), (B, y)] = .error (.conflict 48 [B, A]) := by
  have hsig : signal s B A = 48 := by
    show sigBits (s.sortStartSet.contains B) (s.sortStartSet.contains A)
        (s.sortEndSet.contains B) (s.sortEndSet.contains A)
        (mapHasPair s.sortAfterMap B A) (mapHasPair s.sortAfterMap A B)
        (mapHasPair s.sortBeforeMap B A) (mapHasPair s.sortBeforeMap A B)
        = 48
    rw [hsA, hsB, heA, heB, h1, h2, hbAB, hbBA]
    rfl
  have hcmp : compareIds s B A = .error (.conflict 48 [B, A]) := by
    unfold compareIds
    rw [hsig]
    rfl
  unfold applySortAndMap
  rw [sortPairs_pair]
  simp only [hcmp]

/-- C4 counterexample builder: `sortAfter("A", ["B"])`,
`sortAfter("B", ["A"])` and additionally `sortBefore("B", ["X"])`. -/
def c4Builder : Builder Nat Nat :=
  ((((Builder.init Nat Nat).sortBefore "B" ["X"]).sortAfter "A"
    ["B"]).sortAfter "B" ["A"])

/-- C4 counterexample. With `sortAfter("A", ["B"])` and
`sortAfter("B", ["A"])` both declared (`A ≠ B`, neither in the start or end
partition), sorting the collection `[X, A, B]` does not fail: the stable
pairwise sort places `B` before `X` (because of the additional
`sortBefore("B", ["X"])` rule) without ever comparing `B` against `A`, and
silently returns the order `[B, X, A]`. -/
theorem mutual_after_sort_succeeds :
    mapHasPair c4Builder.toSortState.sortAfterMap "A" "B" = true ∧
    mapHasPair c4Builder.toSortState.sortAfterMap "B" "A" = true ∧
    c4Builder.toSortState.sortStartSet.contains "A" = false ∧
    c4Builder.toSortState.sortStartSet.contains "B" = false ∧
    c4Builder.toSortState.sortEndSet.contains "A" = false ∧
    c4Builder.toSortState.sortEndSet.contains "B" = false ∧
    applySortAndMap c4Builder.toSortState
        [("X", (0 : Nat)), ("A", 1), ("B", 2)] = .ok [2, 0, 1] := by
  decide

/-- C4 witness: a store carrying exactly the two mutual after-edges fails on
the two-element collection with the conflict naming both identifiers. -/
def c4PairState : SortState :=
  (((Builder.init Nat Nat).sortAfter "A" ["B"]).sortAfter "B"
    ["A"]).toSortState

/-- C4 witness statement. -/
theorem mutual_after_pair_conflict_witness :
    applySortAndMap c4PairState [("A", (10 : Nat)), ("B", 20)] =
      .error (.conflict 48 ["B", "A"]) :=
  mutual_after_pair_conflict c4PairState "A" "B" 10 20 (by decide)
    (by decide) (by decide) (by decide) (by decide) (by decide) (by decide)
    (by decide) (by decide)

/-- C5. Registering the same id twice for the same kind always throws that
kind's duplicate-identifier error while the first stored fragment stays in
place, and registering the same id under two different kinds succeeds
independently. -/
theorem register_uniqueness {R V : Type} (b b1 : Builder R V) (id : String)
    (d d2 : DefInput) (r r2 : R) (v v2 : V) :
    (b.addDefinions id d = .ok b1 →
      b1.addDefinions id d2 = .error (.duplicateDefinitions id) ∧
      lookupKey b1.definitions id = some d.toDoc) ∧
    (b.addResolvers id r = .ok b1 →
      b1.addResolvers id r2 = .error (.duplicateResolvers id) ∧
      lookupKey b1.resolvers id = some r) ∧
    (b.addDirectives id v = .ok b1 →
      b1.addDirectives id v2 = .error (.duplicateDirectives id) ∧
      lookupKey b1.directives id = some v) ∧
    (b.hasResolvers id = false → b.addDefinions id d = .ok b1 →
      ∃ b2, b1.addResolvers id r = .ok b2 ∧
        lookupKey b2.resolvers id = some r ∧
        lookupKey b2.definitions id = some d.toDoc) ∧
    (b.hasDirectives id = false → b.addResolvers id r = .ok b1 →
      ∃ b2, b1.addDirectives id v = .ok b2 ∧
        lookupKey b2.directives id = some v ∧
        lookupKey b2.resolvers id = some r) ∧
    (b.hasDefinitions id = false → b.addDirectives id v = .ok b1 →
      ∃ b2, b1.addDefinions id d = .ok b2 ∧
        lookupKey b2.definitions id = some d.toDoc ∧
        lookupKey b2.directives id = some v) := by
  refine ⟨?_, ?_, ?_, ?_, ?_, ?_⟩
  · intro h
    unfold Builder.addDefinions at h
    by_cases hk : hasKey b.definitions id = true
    · rw [if_pos hk] at h; exact absurd h (by simp)
    · rw [if_neg hk] at h
      simp only [Except.ok.injEq] at h
      subst h
      constructor
      · simp [Builder.addDefinions, hasKey_append, hasKey]
      · exact lookupKey_append_self _ _ _ (by simpa using hk)
  · intro h
    unfold Builder.addResolvers at h
    by_cases hk : hasKey b.resolvers id = true
    · rw [if_pos hk] at h; exact absurd h (by simp)
    · rw [if_neg hk] at h
      simp only [Except.ok.injEq] at h
      subst h
      constructor
      · simp [Builder.addResolvers, hasKey_append, hasKey]
      · exact lookupKey_append_self _ _ _ (by simpa using hk)
  · intro h
    unfold Builder.addDirectives at h
    by_cases hk : hasKey b.directives id = true
    · rw [if_pos hk] at h; exact absurd h (by simp)
    · rw [if_neg hk] at h
      simp only [Except.ok.injEq] at h
      subst h
      constructor
      · simp [Builder.addDirectives, hasKey_append, hasKey]
      · exact lookupKey_append_self _ _ _ (by simpa using hk)
  · intro hres h
    unfold Builder.addDefinions at h
    by_cases hk : hasKey b.definitions id = true
    · rw [if_pos hk] at h; exact absurd h (by simp)
    · rw [if_neg hk] at h
      simp only [Except.ok.injEq] at h
      subst h
      refine ⟨{ b with
          definitions := b.definitions ++ [(id, d.toDoc)]
          resolvers := b.resolvers ++ [(id, r)]
          importedIdentifiers :=
            addToSet (addToSet b.importedIdentifiers id) id }, ?_, ?_, ?_⟩
      · unfold Builder.addResolvers
        rw [if_neg (by simpa [Builder.hasResolvers] using hres)]
      · exact lookupKey_append_self _ _ _
          (by simpa [Builder.hasResolvers] using hres)
      · exact lookupKey_append_self _ _ _ (by simpa using hk)
  · intro hdir h
    unfold Builder.addResolvers at h
    by_cases hk : hasKey b.resolvers id = true
    · rw [if_pos hk] at h; exact absurd h (by simp)
    · rw [if_neg hk] at h
      simp only [Except.ok.injEq] at h
      subst h
      refine ⟨{ b with
          resolvers := b.resolvers ++ [(id, r)]
          directives := b.directives ++ [(id, v)]
          importedIdentifiers :=
            addToSet (addToSet b.importedIdentifiers id) id }, ?_, ?_, ?_⟩
      · unfold Builder.addDirectives
        rw [if_neg (by simpa [Builder.hasDirectives] using hdir)]
      · exact lookupKey_append_self _ _ _
          (by simpa [Builder.hasDirectives] using hdir)
      · exact lookupKey_append_self _ _ _ (by simpa using hk)
  · intro hdef h
    unfold Builder.addDirectives at h
    by_cases hk : hasKey b.directives id = true
    · rw [if_pos hk] at h; exact absurd h (by simp)
    · rw [if_neg hk] at h
      simp only [Except.ok.injEq] at h
      subst h
      refine ⟨{ b with
          directives := b.directives ++ [(id, v)]
          definitions := b.definitions ++ [(id, d.toDoc)]
          importedIdentifiers :=
            addToSet (addToSet b.importedIdentifiers id) id }, ?_, ?_, ?_⟩
      · unfold Builder.addDefinions
        rw [if_neg (by simpa [Builder.hasDefinitions] using hdef)]
      · exact lookupKey_append_self _ _ _
          (by simpa [Builder.hasDefinitions] using hdef)
      · exact lookupKey_append_self _ _ _ (by simpa using hk)

/-- C5 witness builder: the state after a successful
`addDefinions("a", "type Query")` on a fresh builder. -/
def c5Builder : Builder Nat Nat :=
  { Builder.init Nat Nat with
    importedIdentifiers := ["a"]
    definitions := [("a", DocumentNode.gql "type Query")] }

/-- C5 witness: the registered definition is stored, a second registration
of the same id and kind fails with the duplicate error, and registering the
same id as a resolver afterwards succeeds with both fragments stored. -/
theorem register_uniqueness_witness :
    c5Builder.addDefinions "a" (.str "other") =
      .error (.duplicateDefinitions "a") ∧
    lookupKey c5Builder.definitions "a" =
      some (DocumentNode.gql "type Query") ∧
    ∃ b2, c5Builder.addResolvers "a" 7 = .ok b2 ∧
      lookupKey b2.resolvers "a" = some 7 ∧
      lookupKey b2.definitions "a" = some (DocumentNode.gql "type Query") := by
  have h0 : (Builder.init Nat Nat).addDefinions "a"
      (.str "type Query") = .ok c5Builder := by decide
  obtain ⟨hdup, hstore⟩ :=
    (register_uniqueness (Builder.init Nat Nat) c5Builder "a"
      (.str "type Query") (.str "other") 7 7 0 0).1 h0
  obtain ⟨b2, hok, hres, hdef⟩ :=
    (register_uniqueness (Builder.init Nat Nat) c5Builder "a"
      (.str "type Query") (.str "other") 7 7 0 0).2.2.2.1 (by decide) h0
  exact ⟨hdup, hstore, b2, hok, hres, hdef⟩

/-- C6 counterexample. On a builder with zero fragments of every kind,
`prepareSchema` succeeds but does not yield an empty sequence for
definitions nor an empty merged structure for resolvers/directives: it
yields the single document `gql("")` for `typeDefs` and the absent value
(`undefined`) for `resolvers` and `schemaDirectives`. -/
theorem prepareSchema_empty_shape :
    (Builder.init Nat Nat).prepareSchema 0 Nat.add 0 Nat.add =
      .ok ⟨.single (.gql ""), none, none⟩ ∧
    TypeDefs.single (.gql "") ≠ TypeDefs.list [] ∧
    (none : Option Nat) ≠ some 0 := by
  refine ⟨by decide, by decide, by decide⟩

/-- C6 amended. A kind with zero registered fragments never causes
`prepareSchema` to fail: with every kind empty the call succeeds outright,
and whenever the call succeeds an empty definitions map yields the
`gql("")` document (not a sequence) while empty resolvers/directives maps
yield the absent value (not an empty merged structure). -/
theorem prepareSchema_empty_kinds {R V : Type} (eR : R) (mR : R → R → R)
    (eV : V) (mV : V → V → V) :
    (Builder.init R V).prepareSchema eR mR eV mV =
      .ok ⟨.single (.gql ""), none, none⟩ ∧
    (∀ (b : Builder R V) p, b.definitions = [] →
      b.prepareSchema eR mR eV mV = .ok p →
      p.typeDefs = .single (.gql "")) ∧
    (∀ (b : Builder R V) p, b.resolvers = [] →
      b.prepareSchema eR mR eV mV = .ok p → p.resolvers = none) ∧
    (∀ (b : Builder R V) p, b.directives = [] →
      b.prepareSchema eR mR eV mV = .ok p → p.schemaDirectives = none) := by
  refine ⟨rfl, ?_, ?_, ?_⟩
  · intro b p hdef h
    unfold Builder.prepareSchema at h
    rw [hdef] at h
    simp only [List.isEmpty_nil, if_true] at h
    rcases hr : (if b.resolvers.isEmpty then Except.ok none
        else
          match applySortAndMerge b.toSortState eR mR b.resolvers with
          | .ok r => .ok (some r)
          | .error e => .error e) with e | orv
    all_goals rw [hr] at h
    · exact absurd h (by simp)
    · rcases hv : (if b.directives.isEmpty then Except.ok none
          else
            match applySortAndMerge b.toSortState eV mV b.directives with
            | .ok v => .ok (some v)
            | .error e => .error e) with e | ov
      all_goals rw [hv] at h
      · exact absurd h (by simp)
      · simp only [Except.ok.injEq] at h
        rw [← h]
  · intro b p hres h
    unfold Builder.prepareSchema at h
    rw [hres] at h
    simp only [List.isEmpty_nil, if_true] at h
    rcases hd : (if b.definitions.isEmpty then
          Except.ok (TypeDefs.single (.gql ""))
        else
          match applySortAndMap b.toSortState b.definitions with
          | .ok docs => .ok (TypeDefs.list docs)
          | .error e => .error e) with e | otd
    all_goals rw [hd] at h
    · exact absurd h (by simp)
    · rcases hv : (if b.directives.isEmpty then Except.ok none
          else
            match applySortAndMerge b.toSortState eV mV b.directives with
            | .ok v => .ok (some v)
            | .error e => .error e) with e | ov
      all_goals rw [hv] at h
      · exact absurd h (by simp)
      · simp only [Except.ok.injEq] at h
        rw [← h]
  · intro b p hdir h
    unfold Builder.prepareSchema at h
    rw [hdir] at h
    simp only [List.isEmpty_nil, if_true] at h
    rcases hd : (if b.definitions.isEmpty then
          Except.ok (TypeDefs.single (.gql ""))
        else
          match applySortAndMap b.toSortState b.definitions with
          | .ok docs => .ok (TypeDefs.list docs)
          | .error e => .error e) with e | otd
    all_goals rw [hd] at h
    · exact absurd h (by simp)
    · rcases hr : (if b.resolvers.isEmpty then Except.ok none
          else
            match applySortAndMerge b.toSortState eR mR b.resolvers with
            | .ok r => .ok (some r)
            | .error e => .error e) with e | orv
      all_goals rw [hr] at h
      · exact absurd h (by simp)
      · simp only [Except.ok.injEq] at h
        rw [← h]

/-- C6 witness builder: definitions empty, one resolver registered. -/
def c6Builder : Builder Nat Nat :=
  { Builder.init Nat Nat with
    importedIdentifiers := ["a"]
    resolvers := [("a", 5)] }

/-- C6 witness: on a builder with no definitions and one resolver the
prepared payload has the `gql("")` document (established through the
amended theorem) and merges the single resolver. -/
theorem prepareSchema_empty_kinds_witness :
    (⟨.single (.gql ""), some 5, none⟩ :
      PreparedApolloSchema Nat Nat).typeDefs = .single (.gql "") :=
  (prepareSchema_empty_kinds 0 Nat.add 0 Nat.add).2.1 c6Builder
    ⟨.single (.gql ""), some 5, none⟩ rfl (by decide)

/-- `applySortAndMap` as a state-threaded call: the method only reads the
readonly constraint maps (the sort even operates on `Array.from`'s copy of
the iterator), so the builder after the call is the builder before it. The
pair returned is (result, builder state after the call). -/
def applySortAndMapRun {R V T : Type} (b : Builder R V)
    (l : List (String × T)) :
    Except SortErr (List T) × Builder R V :=
  (applySortAndMap b.toSortState l, b)

/-- `applySortAndMerge` as a state-threaded call; like `applySortAndMapRun`
it performs no writes to any field. -/
def applySortAndMergeRun {R V T : Type} (b : Builder R V) (e : T)
    (m : T → T → T) (l : List (String × T)) :
    Except SortErr T × Builder R V :=
  (applySortAndMerge b.toSortState e m l, b)

/-- `prepareSchema` as a state-threaded call; it reads the three fragment
maps and the constraint store and writes nothing. -/
def prepareSchemaRun {R V : Type} (b : Builder R V) (eR : R)
    (mR : R → R → R) (eV : V) (mV : V → V → V) :
    Except SortErr (PreparedApolloSchema R V) × Builder R V :=
  (b.prepareSchema eR mR eV mV, b)

/-- C7. The ordering-and-aggregation operations leave every field of the
builder (the three fragment maps, the known-identifier set, and the four
constraint-store fields) unchanged, and invoking any of them a second time
on the state left by the first call returns the identical output. -/
theorem sort_operations_pure_and_deterministic {R V T : Type}
    (b : Builder R V) (l : List (String × T)) (e : T) (m : T → T → T)
    (eR : R) (mR : R → R → R) (eV : V) (mV : V → V → V) :
    ((applySortAndMapRun b l).2 = b ∧
      (applySortAndMergeRun b e m l).2 = b ∧
      (prepareSchemaRun b eR mR eV mV).2 = b) ∧
    ((applySortAndMapRun b l).2.definitions = b.definitions ∧
      (applySortAndMapRun b l).2.resolvers = b.resolvers ∧
      (applySortAndMapRun b l).2.directives = b.directives ∧
      (applySortAndMapRun b l).2.sortAfterMap = b.sortAfterMap ∧
      (applySortAndMapRun b l).2.sortBeforeMap = b.sortBeforeMap ∧
      (applySortAndMapRun b l).2.sortStartSet = b.sortStartSet ∧
      (applySortAndMapRun b l).2.sortEndSet = b.sortEndSet) ∧
    ((applySortAndMapRun ((applySortAndMapRun b l).2) l).1 =
        (applySortAndMapRun b l).1 ∧
      (applySortAndMergeRun ((applySortAndMergeRun b e m l).2) e m l).1 =
        (applySortAndMergeRun b e m l).1 ∧
      (prepareSchemaRun ((prepareSchemaRun b eR mR eV mV).2) eR mR eV
          mV).1 =
        (prepareSchemaRun b eR mR eV mV).1) :=
  ⟨⟨rfl, rfl, rfl⟩, ⟨rfl, rfl, rfl, rfl, rfl, rfl, rfl⟩, ⟨rfl, rfl, rfl⟩⟩

/-- The builder produced by a successful `addDefinions`. -/
theorem addDefinions_ok_fields {R V : Type} {b b1 : Builder R V}
    {id : String} {d : DefInput} (h : b.addDefinions id d = .ok b1) :
    b1 = { b with
      importedIdentifiers := addToSet b.importedIdentifiers id
      definitions := b.definitions ++ [(id, d.toDoc)] } := by
  unfold Builder.addDefinions at h
  by_cases hk : hasKey b.definitions id = true
  · rw [if_pos hk] at h; exact absurd h (by simp)
  · rw [if_neg hk] at h
    simp only [Except.ok.injEq] at h
    exact h.symm

/-- The builder produced by a successful `addResolvers`. -/
theorem addResolvers_ok_fields {R V : Type} {b b1 : Builder R V}
    {id : String} {r : R} (h : b.addResolvers id r = .ok b1) :
    b1 = { b with
      importedIdentifiers := addToSet b.importedIdentifiers id
      resolvers := b.resolvers ++ [(id, r)] } := by
  unfold Builder.addResolvers at h
  by_cases hk : hasKey b.resolvers id = true
  · rw [if_pos hk] at h; exact absurd h (by simp)
  · rw [if_neg hk] at h
    simp only [Except.ok.injEq] at h
    exact h.symm

/-- The builder produced by a successful `addDirectives`. -/
theorem addDirectives_ok_fields {R V : Type} {b b1 : Builder R V}
    {id : String} {v : V} (h : b.addDirectives id v = .ok b1) :
    b1 = { b with
      importedIdentifiers := addToSet b.importedIdentifiers id
      directives := b.directives ++ [(id, v)] } := by
  unfold Builder.addDirectives at h
  by_cases hk : hasKey b.directives id = true
  · rw [if_pos hk] at h; exact absurd h (by simp)
  · rw [if_neg hk] at h
    simp only [Except.ok.injEq] at h
    exact h.symm

/-- `sortAfter` does not touch the start partition. -/
theorem sortAfter_startSet {R V : Type} (b : Builder R V) (id : String)
    (ids : List String) : (b.sortAfter id ids).sortStartSet =
      b.sortStartSet := by
  unfold Builder.sortAfter; split <;> rfl

/-- `sortBefore` does not touch the start partition. -/
theorem sortBefore_startSet {R V : Type} (b : Builder R V) (id : String)
    (ids : List String) : (b.sortBefore id ids).sortStartSet =
      b.sortStartSet := by
  unfold Builder.sortBefore; split <;> rfl

/-- The registration-relevant fields of a builder (the three fragment maps
and the known-identifier set). -/
def regFields {R V : Type} (b : Builder R V) :
    List (String × DocumentNode) × List (String × R) × List (String × V) ×
      List String :=
  (b.definitions, b.resolvers, b.directives, b.importedIdentifiers)

/-- `sortAfter` does not touch the registration fields. -/
theorem sortAfter_regFields {R V : Type} (b : Builder R V) (id : String)
    (ids : List String) : regFields (b.sortAfter id ids) = regFields b := by
  unfold Builder.sortAfter; split <;> rfl

/-- `sortBefore` does not touch the registration fields. -/
theorem sortBefore_regFields {R V : Type} (b : Builder R V) (id : String)
    (ids : List String) : regFields (b.sortBefore id ids) = regFields b := by
  unfold Builder.sortBefore; split <;> rfl

/-- Decomposition of a successful `importFile` into its four phases. -/
theorem importFile_ok_decomp {R V : Type} {b b4 : Builder R V} {id : String}
    {u : ImportedUnit R V} (h : b.importFile id u = .ok b4) :
    ∃ b1 b2 b3, importDefsStep id u b = .ok b1 ∧
      importResolversStep id u b1 = .ok b2 ∧
      importDirectivesStep id u b2 = .ok b3 ∧
      b4 = importSortSteps id u b3 := by
  unfold Builder.importFile at h
  by_cases hh : b.has id = true
  · rw [if_pos hh] at h; exact absurd h (by simp)
  · rw [if_neg hh] at h
    rcases h1 : importDefsStep id u b with e | b1 <;> rw [h1] at h <;>
      dsimp only at h
    · exact absurd h (by simp)
    rcases h2 : importResolversStep id u b1 with e | b2 <;> rw [h2] at h <;>
      dsimp only at h
    · exact absurd h (by simp)
    rcases h3 : importDirectivesStep id u b2 with e | b3 <;> rw [h3] at h <;>
      dsimp only at h
    · exact absurd h (by simp)
    simp only [Except.ok.injEq] at h
    exact ⟨b1, b2, b3, rfl, h2, h3, h.symm⟩

/-- The definitions phase of `importFile` keeps the start partition. -/
theorem importDefsStep_startSet {R V : Type} {b b1 : Builder R V}
    {id : String} {u : ImportedUnit R V}
    (h : importDefsStep id u b = .ok b1) :
    b1.sortStartSet = b.sortStartSet := by
  unfold importDefsStep at h
  rcases hd : u.definitions with _ | d <;> rw [hd] at h
  · simp only [Except.ok.injEq] at h; rw [← h]
  · rw [addDefinions_ok_fields h]

/-- The resolvers phase of `importFile` keeps the start partition. -/
theorem importResolversStep_startSet {R V : Type} {b b1 : Builder R V}
    {id : String} {u : ImportedUnit R V}
    (h : importResolversStep id u b = .ok b1) :
    b1.sortStartSet = b.sortStartSet := by
  unfold importResolversStep at h
  rcases hd : u.resolvers with _ | r <;> rw [hd] at h
  · simp only [Except.ok.injEq] at h; rw [← h]
  · rw [addResolvers_ok_fields h]

/-- The directives phase of `importFile` keeps the start partition. -/
theorem importDirectivesStep_startSet {R V : Type} {b b1 : Builder R V}
    {id : String} {u : ImportedUnit R V}
    (h : importDirectivesStep id u b = .ok b1) :
    b1.sortStartSet = b.sortStartSet := by
  unfold importDirectivesStep at h
  rcases hd : u.directives with _ | v <;> rw [hd] at h
  · simp only [Except.ok.injEq] at h; rw [← h]
  · rw [addDirectives_ok_fields h]

/-- The sort phase of `importFile` only ever adds to the start partition. -/
theorem importSortSteps_start_mono {R V : Type} (id : String)
    (u : ImportedUnit R V) (b : Builder R V) (x : String)
    (hx : x ∈ b.sortStartSet) :
    x ∈ (importSortSteps id u b).sortStartSet := by
  unfold importSortSteps
  have s4 : ∀ t : Builder R V, x ∈ t.sortStartSet →
      x ∈ (match u.sortAfter with
        | some l => t.sortAfter id l
        | none => t).sortStartSet := by
    intro t ht
    cases u.sortAfter with
    | none => exact ht
    | some l => rw [sortAfter_startSet]; exact ht
  have s3 : ∀ t : Builder R V, x ∈ t.sortStartSet →
      x ∈ (if u.sortAfter.isSome then
          match u.sortBefore with
          | some l => t.sortBefore id l
          | none => t
        else t).sortStartSet := by
    intro t ht
    split
    · cases u.sortBefore with
      | none => exact ht
      | some l => rw [sortBefore_startSet]; exact ht
    · exact ht
  have s2 : ∀ t : Builder R V, x ∈ t.sortStartSet →
      x ∈ (match u.sortStart with
        | some true => t.sortStart [id]
        | _ => t).sortStartSet := by
    intro t ht
    cases u.sortStart with
    | none => exact ht
    | some bb =>
      cases bb with
      | false => exact ht
      | true => exact mem_foldl_addToSet _ _ _ ht
  have s1 : ∀ t : Builder R V, x ∈ t.sortStartSet →
      x ∈ (match u.sortEnd with
        | some true => t.sortEnd [id]
        | _ => t).sortStartSet := by
    intro t ht
    cases u.sortEnd with
    | none => exact ht
    | some bb => cases bb with
      | false => exact ht
      | true => exact ht
  exact s1 _ (s2 _ (s3 _ (s4 _ hx)))

/-- No public operation ever removes an identifier from the start
partition: membership only grows along reachability. -/
theorem reach_start_mono {R V : Type} (b : Builder R V) (h : Reach b)
    (x : String)
    (hx : x ∈ (["index", "Query", "Mutation", "Subscription"] :
      List String)) : x ∈ b.sortStartSet := by
  induction h with
  | init => exact hx
  | addDefs b0 b1 id d hr hok ih => rw [addDefinions_ok_fields hok]; exact ih
  | addRes b0 b1 id r hr hok ih => rw [addResolvers_ok_fields hok]; exact ih
  | addDirs b0 b1 id v hr hok ih =>
    rw [addDirectives_ok_fields hok]; exact ih
  | after b0 id ids hr ih => rw [sortAfter_startSet]; exact ih
  | before b0 id ids hr ih => rw [sortBefore_startSet]; exact ih
  | start b0 ids hr ih => exact mem_foldl_addToSet _ _ _ ih
  | stop b0 ids hr ih => exact ih
  | importF b0 bFin id u hr hok ih =>
    obtain ⟨b1, b2, b3, h1, h2, h3, hfin⟩ := importFile_ok_decomp hok
    rw [hfin]
    apply importSortSteps_start_mono
    rw [importDirectivesStep_startSet h3, importResolversStep_startSet h2,
      importDefsStep_startSet h1]
    exact ih

/-- C8 counterexample. The pre-seeded start partition is not overridable:
no sequence of public API calls on a freshly constructed builder reaches a
state in which any of `index`, `Query`, `Mutation`, `Subscription` has left
the start partition, because every operation either leaves the partition
alone or only adds to it. -/
theorem start_partition_not_overridable :
    ¬ ∃ b : Builder Nat Nat, Reach b ∧
      ¬("index" ∈ b.sortStartSet ∧ "Query" ∈ b.sortStartSet ∧
        "Mutation" ∈ b.sortStartSet ∧ "Subscription" ∈ b.sortStartSet) := by
  rintro ⟨b, hr, hnot⟩
  exact hnot ⟨reach_start_mono b hr _ (by decide),
    reach_start_mono b hr _ (by decide), reach_start_mono b hr _ (by decide),
    reach_start_mono b hr _ (by decide)⟩

/-- C8 amended. The default start partition is extend-only, not
overridable: in every builder state reachable through the public API the
four pre-seeded identifiers are still members of the start partition used
at sort time. -/
theorem start_partition_persistent {R V : Type} (b : Builder R V)
    (h : Reach b) :
    "index" ∈ b.sortStartSet ∧ "Query" ∈ b.sortStartSet ∧
    "Mutation" ∈ b.sortStartSet ∧ "Subscription" ∈ b.sortStartSet :=
  ⟨reach_start_mono b h _ (by decide), reach_start_mono b h _ (by decide),
    reach_start_mono b h _ (by decide), reach_start_mono b h _ (by decide)⟩

/-- C8 witness: even after `sortStart("extra")` and `sortEnd("index")` the
pre-seeded identifiers are still in the start partition. -/
theorem start_partition_persistent_witness :
    "index" ∈ (((Builder.init Nat Nat).sortStart ["extra"]).sortEnd
      ["index"]).sortStartSet :=
  (start_partition_persistent _
    (Reach.stop _ _ (Reach.start _ _ Reach.init))).1

/-- Every fragment-map key is a known identifier. -/
def knownInv {R V : Type} (b : Builder R V) : Prop :=
  ∀ x : String,
    (hasKey b.definitions x = true → x ∈ b.importedIdentifiers) ∧
    (hasKey b.resolvers x = true → x ∈ b.importedIdentifiers) ∧
    (hasKey b.directives x = true → x ∈ b.importedIdentifiers)

/-- A key of a one-entry map is that entry's key. -/
theorem hasKey_singleton {T : Type} (k x : String) (t : T)
    (h : hasKey [(k, t)] x = true) : x = k := by
  simp only [hasKey, List.any_cons, List.any_nil, Bool.or_false,
    beq_iff_eq] at h
  exact h.symm

/-- `addDefinions` preserves the known-identifier invariant. -/
theorem knownInv_addDefinions {R V : Type} {b b1 : Builder R V}
    {id : String} {d : DefInput} (hI : knownInv b)
    (h : b.addDefinions id d = .ok b1) : knownInv b1 := by
  rw [addDefinions_ok_fields h]
  intro x
  refine ⟨?_, ?_, ?_⟩
  · intro hk
    rw [show ({ b with
        importedIdentifiers := addToSet b.importedIdentifiers id
        definitions := b.definitions ++ [(id, d.toDoc)] } :
          Builder R V).definitions =
        b.definitions ++ [(id, d.toDoc)] from rfl, hasKey_append] at hk
    rcases Bool.or_eq_true_iff.1 hk with h1 | h2
    · exact (mem_addToSet _ _ _).2 (Or.inl ((hI x).1 h1))
    · exact (mem_addToSet _ _ _).2 (Or.inr (hasKey_singleton _ _ _ h2))
  · intro hk
    exact (mem_addToSet _ _ _).2 (Or.inl ((hI x).2.1 hk))
  · intro hk
    exact (mem_addToSet _ _ _).2 (Or.inl ((hI x).2.2 hk))

/-- `addResolvers` preserves the known-identifier invariant. -/
theorem knownInv_addResolvers {R V : Type} {b b1 : Builder R V}
    {id : String} {r : R} (hI : knownInv b)
    (h : b.addResolvers id r = .ok b1) : knownInv b1 := by
  rw [addResolvers_ok_fields h]
  intro x
  refine ⟨?_, ?_, ?_⟩
  · intro hk
    exact (mem_addToSet _ _ _).2 (Or.inl ((hI x).1 hk))
  · intro hk
    rw [show ({ b with
        importedIdentifiers := addToSet b.importedIdentifiers id
        resolvers := b.resolvers ++ [(id, r)] } :
          Builder R V).resolvers =
        b.resolvers ++ [(id, r)] from rfl, hasKey_append] at hk
    rcases Bool.or_eq_true_iff.1 hk with h1 | h2
    · exact (mem_addToSet _ _ _).2 (Or.inl ((hI x).2.1 h1))
    · exact (mem_addToSet _ _ _).2 (Or.inr (hasKey_singleton _ _ _ h2))
  · intro hk
    exact (mem_addToSet _ _ _).2 (Or.inl ((hI x).2.2 hk))

/-- `addDirectives` preserves the known-identifier invariant. -/
theorem knownInv_addDirectives {R V : Type} {b b1 : Builder R V}
    {id : String} {v : V} (hI : knownInv b)
    (h : b.addDirectives id v = .ok b1) : knownInv b1 := by
  rw [addDirectives_ok_fields h]
  intro x
  refine ⟨?_, ?_, ?_⟩
  · intro hk
    exact (mem_addToSet _ _ _).2 (Or.inl ((hI x).1 hk))
  · intro hk
    exact (mem_addToSet _ _ _).2 (Or.inl ((hI x).2.1 hk))
  · intro hk
    rw [show ({ b with
        importedIdentifiers := addToSet b.importedIdentifiers id
        directives := b.directives ++ [(id, v)] } :
          Builder R V).directives =
        b.directives ++ [(id, v)] from rfl, hasKey_append] at hk
    rcases Bool.or_eq_true_iff.1 hk with h1 | h2
    · exact (mem_addToSet _ _ _).2 (Or.inl ((hI x).2.2 h1))
    · exact (mem_addToSet _ _ _).2 (Or.inr (hasKey_singleton _ _ _ h2))

/-- Equal registration fields transport the known-identifier invariant. -/
theorem knownInv_of_regFields_eq {R V : Type} {a b : Builder R V}
    (h : regFields a = regFields b) (hI : knownInv b) : knownInv a := by
  unfold regFields at h
  simp only [Prod.mk.injEq] at h
  intro x
  rw [h.1, h.2.1, h.2.2.1, h.2.2.2]
  exact hI x

/-- The sort phase of `importFile` preserves the registration fields. -/
theorem importSortSteps_regFields {R V : Type} (id : String)
    (u : ImportedUnit R V) (b : Builder R V) :
    regFields (importSortSteps id u b) = regFields b := by
  unfold importSortSteps
  have s4 : ∀ t : Builder R V,
      regFields (match u.sortAfter with
        | some l => t.sortAfter id l
        | none => t) = regFields t := by
    intro t
    cases u.sortAfter with
    | none => rfl
    | some l => exact sortAfter_regFields t id l
  have s3 : ∀ t : Builder R V,
      regFields (if u.sortAfter.isSome then
          match u.sortBefore with
          | some l => t.sortBefore id l
          | none => t
        else t) = regFields t := by
    intro t
    split
    · cases u.sortBefore with
      | none => rfl
      | some l => exact sortBefore_regFields t id l
    · rfl
  have s2 : ∀ t : Builder R V,
      regFields (match u.sortStart with
        | some true => t.sortStart [id]
        | _ => t) = regFields t := by
    intro t
    cases u.sortStart with
    | none => rfl
    | some bb => cases bb <;> rfl
  have s1 : ∀ t : Builder R V,
      regFields (match u.sortEnd with
        | some true => t.sortEnd [id]
        | _ => t) = regFields t := by
    intro t
    cases u.sortEnd with
    | none => rfl
    | some bb => cases bb <;> rfl
  exact ((s1 _).trans ((s2 _).trans ((s3 _).trans (s4 _))))

/-- The definitions phase of `importFile` preserves the invariant. -/
theorem knownInv_importDefsStep {R V : Type} {b b1 : Builder R V}
    {id : String} {u : ImportedUnit R V} (hI : knownInv b)
    (h : importDefsStep id u b = .ok b1) : knownInv b1 := by
  unfold importDefsStep at h
  rcases hd : u.definitions with _ | d <;> rw [hd] at h
  · simp only [Except.ok.injEq] at h; rw [← h]; exact hI
  · exact knownInv_addDefinions hI h

/-- The resolvers phase of `importFile` preserves the invariant. -/
theorem knownInv_importResolversStep {R V : Type} {b b1 : Builder R V}
    {id : String} {u : ImportedUnit R V} (hI : knownInv b)
    (h : importResolversStep id u b = .ok b1) : knownInv b1 := by
  unfold importResolversStep at h
  rcases hd : u.resolvers with _ | r <;> rw [hd] at h
  · simp only [Except.ok.injEq] at h; rw [← h]; exact hI
  · exact knownInv_addResolvers hI h

/-- The directives phase of `importFile` preserves the invariant. -/
theorem knownInv_importDirectivesStep {R V : Type} {b b1 : Builder R V}
    {id : String} {u : ImportedUnit R V} (hI : knownInv b)
    (h : importDirectivesStep id u b = .ok b1) : knownInv b1 := by
  unfold importDirectivesStep at h
  rcases hd : u.directives with _ | v <;> rw [hd] at h
  · simp only [Except.ok.injEq] at h; rw [← h]; exact hI
  · exact knownInv_addDirectives hI h

/-- The known-identifier invariant holds in every reachable state. -/
theorem reach_knownInv {R V : Type} (b : Builder R V) (h : Reach b) :
    knownInv b := by
  induction h with
  | init => intro x; exact ⟨fun hk => by simp [hasKey, Builder.init] at hk,
      fun hk => by simp [hasKey, Builder.init] at hk,
      fun hk => by simp [hasKey, Builder.init] at hk⟩
  | addDefs b0 b1 id d hr hok ih => exact knownInv_addDefinions ih hok
  | addRes b0 b1 id r hr hok ih => exact knownInv_addResolvers ih hok
  | addDirs b0 b1 id v hr hok ih => exact knownInv_addDirectives ih hok
  | after b0 id ids hr ih =>
    exact knownInv_of_regFields_eq (sortAfter_regFields b0 id ids) ih
  | before b0 id ids hr ih =>
    exact knownInv_of_regFields_eq (sortBefore_regFields b0 id ids) ih
  | start b0 ids hr ih => exact knownInv_of_regFields_eq rfl ih
  | stop b0 ids hr ih => exact knownInv_of_regFields_eq rfl ih
  | importF b0 bFin id u hr hok ih =>
    obtain ⟨b1, b2, b3, h1, h2, h3, hfin⟩ := importFile_ok_decomp hok
    rw [hfin]
    exact knownInv_of_regFields_eq (importSortSteps_regFields id u b3)
      (knownInv_importDirectivesStep
        (knownInv_importResolversStep (knownInv_importDefsStep ih h1) h2) h3)

/-- C10. After any sequence of successful public operations on a freshly
constructed builder, every key of the definitions, resolvers or directives
map is a member of the known-identifiers set; consequently `has(id)`
returns `true` whenever `hasDefinitions(id)`, `hasResolvers(id)` or
`hasDirectives(id)` does. -/
theorem registered_ids_are_known {R V : Type} (b : Builder R V)
    (h : Reach b) (id : String)
    (hk : (b.hasDefinitions id || b.hasResolvers id ||
      b.hasDirectives id) = true) : b.has id = true := by
  have hI := reach_knownInv b h
  simp only [Bool.or_eq_true] at hk
  have hmem : id ∈ b.importedIdentifiers := by
    rcases hk with (h1 | h2) | h3
    · exact (hI id).1 h1
    · exact (hI id).2.1 h2
    · exact (hI id).2.2 h3
  unfold Builder.has
  simpa using hmem

/-- C10 witness builder: one definition registered under `"m"`. -/
def c10Builder : Builder Nat Nat :=
  { Builder.init Nat Nat with
    importedIdentifiers := ["m"]
    definitions := [("m", DocumentNode.gql "q")] }

/-- C10 witness: in the reachable state `c10Builder`, `hasDefinitions "m"`
holds and therefore `has "m"` holds. -/
theorem registered_ids_are_known_witness : c10Builder.has "m" = true :=
  registered_ids_are_known c10Builder
    (Reach.addDefs _ _ "m" (.str "q") Reach.init (by decide)) "m"
    (by decide)

/-- C9. `importFile`'s guard for the before-list re-checks
`typeof imported.sortAfter === "object"` instead of `imported.sortBefore`
(source line 244), so a unit exporting only a before-list is imported
without `sortBefore` ever being invoked: the builder is returned unchanged,
its `sortBeforeMap` still empty. The same unit with a `sortAfter` export
added does get its before-list registered, which shows the guard is keyed
to the wrong field. -/
theorem importFile_drops_lone_sortBefore :
    (Builder.init Nat Nat).importFile "user"
        { definitions := none, resolvers := none, directives := none,
          sortAfter := none, sortBefore := some ["x"], sortStart := none,
          sortEnd := none } =
      .ok (Builder.init Nat Nat) ∧
    (Builder.init Nat Nat).importFile "user"
        { definitions := none, resolvers := none, directives := none,
          sortAfter := some ["y"], sortBefore := some ["x"],
          sortStart := none, sortEnd := none } =
      .ok { Builder.init Nat Nat with
        sortAfterMap := [("user", ["y"])]
        sortBeforeMap := [("user", ["x"])] } :=
  ⟨by decide, by decide⟩
